import Mathlib

/-!
Verification development for the framefold media organizer.

The Go source is shallowly embedded: the process lock (`lock.go`), the
content-identity comparator, the date resolver, the per-file relocation
pipeline (`processor.go`) and the empty-directory sweeper are translated
into executable Lean definitions, and the specification's claims are
settled as theorems about those definitions.

Modelling conventions:
  * file contents are byte lists (`List Nat`); a file's size is the
    length of its contents, as `os.FileInfo.Size` reports;
  * SHA-256 is an uninterpreted digest function supplied by the
    environment (`Env.hashFn`); the code under verification never
    inspects digests beyond equality;
  * times are integers counting seconds (the lock code compares a
    modification time plus 24 hours against the current time);
  * the filesystem seen by the pipeline is a partial map from path
    strings to file data; the sweeper works on paths as segment lists,
    matching the `strings.Split(dir, separator)` depth computation.
-/

namespace Framefold

/-! ## Process lock (lock.go) -/

/-- Metadata of the lock marker file as observed by `isStale`:
its modification time (seconds) and its textual content. -/
structure LockInfo where
  modTime : Int
  content : String
deriving DecidableEq

/-- State of the lock marker path at one acquisition attempt. -/
inductive LockFile where
  | absent
  | present (info : LockInfo)
deriving DecidableEq

/-- Decide whether a character is an ASCII digit. -/
def isDigitCh (c : Char) : Bool := decide ('0' ≤ c) && decide (c ≤ '9')

/-- Numeric value of a digit string. -/
def digitsVal (l : List Char) : Nat :=
  l.foldl (fun a c => a * 10 + (c.toNat - Char.toNat '0')) 0

/-- Model of `fmt.Sscanf(string(data), "%d", &pid)`: skip leading
whitespace, accept an optional minus sign followed by at least one
digit; anything after the digits is ignored.  `none` models the scan
error taken by `isStale` as "invalid PID format". -/
def parsePid (s : String) : Option Int :=
  let cs := s.toList.dropWhile (fun c => c = ' ' || c = '\n' || c = '\t')
  match cs with
  | '-' :: rest =>
      if rest.takeWhile isDigitCh = [] then none
      else some (-(digitsVal (rest.takeWhile isDigitCh) : Int))
  | _ =>
      if cs.takeWhile isDigitCh = [] then none
      else some ((digitsVal (cs.takeWhile isDigitCh) : Int))

/-- Translation of `processLock.isStale`.  `now` is the current time in
seconds, `alive pid` tells whether sending signal 0 to `pid` succeeds
(`os.FindProcess` never fails on Unix).  A missing file (`stat` error)
is reported not stale; a marker older than 24 hours, or with an
unparsable PID, or naming a dead process, is stale. -/
def isStale (now : Int) (alive : Int → Bool) (file : LockFile) : Bool :=
  match file with
  | .absent => false
  | .present i =>
      if i.modTime + 24 * 3600 < now then true
      else
        match parsePid i.content with
        | none => true
        | some pid => !(alive pid)

/-- Translation of `processLock.acquire`, made total with explicit fuel.
`env k` is the state of the marker path as observed by the `k`-th
attempt (the environment sequence models other processes recreating the
marker between a stale-removal and the retry).  The Go function recurses
unconditionally after deleting a stale marker; `none` means the fuel ran
out while the recursion was still going. -/
def acquireAux (now : Int) (alive : Int → Bool) (env : Nat → LockFile) :
    Nat → Nat → Option Bool
  | 0, _ => none
  | fuel + 1, k =>
      match env k with
      | .absent => some true
      | .present i =>
          if isStale now alive (.present i) then
            acquireAux now alive env fuel (k + 1)
          else some false

/-- The always-present, always-stale environment: every attempt finds a
marker whose recorded process is dead. -/
def hostileLockEnv : Nat → LockFile := fun _ => LockFile.present ⟨0, "1"⟩

theorem hostileLockEnv_stale :
    isStale 0 (fun _ => false) (.present ⟨0, "1"⟩) = true := by
  decide

theorem acquireAux_hostile_none (fuel k : Nat) :
    acquireAux 0 (fun _ => false) hostileLockEnv fuel k = none := by
  induction fuel generalizing k with
  | zero => rfl
  | succ n ih =>
      simp only [acquireAux, hostileLockEnv, hostileLockEnv_stale, if_true]
      exact ih (k + 1)

/-- Claim C5 as stated is false: the retry recursion in `acquire` has no
bound, so against an environment in which the marker keeps reappearing
as stale the acquisition never terminates, however much fuel it is
given. -/
theorem c5_counterexample :
    ¬ ∃ N : Nat,
      (acquireAux 0 (fun _ => false) hostileLockEnv N 0).isSome = true := by
  rintro ⟨N, hN⟩
  rw [acquireAux_hostile_none N 0] at hN
  simp at hN

/-- Claim C5, amended: the retry recursion is bounded only in a
quiescent environment.  If no other process recreates the marker between
a stale-removal and the retry (whenever an attempt sees a stale marker,
the next attempt sees no marker), then `acquire` terminates within one
retry, i.e. two attempts of fuel suffice. -/
theorem c5_acquire_quiescent_terminates (now : Int) (alive : Int → Bool)
    (env : Nat → LockFile)
    (hq : ∀ i, env 0 = .present i → isStale now alive (.present i) = true →
      env 1 = .absent) :
    (acquireAux now alive env 2 0).isSome = true := by
  cases henv : env 0 with
  | absent => simp [acquireAux, henv]
  | present i =>
      by_cases hs : isStale now alive (.present i) = true
      · have h1 := hq i henv hs
        simp [acquireAux, henv, hs, h1]
      · simp [acquireAux, henv, hs]

theorem c5_acquire_quiescent_terminates_witness :
    (acquireAux 0 (fun _ => false)
      (fun k => if k = 0 then .present ⟨0, "x"⟩ else .absent) 2 0).isSome
      = true := by
  refine c5_acquire_quiescent_terminates 0 (fun _ => false) _ ?_
  intro i h1 _
  simp

/-- Claim C6: a readable lock marker is stale if and only if its
recorded timestamp is more than 24 hours in the past, or its PID is
unparsable, or the recorded process is not alive (signal-0 probe fails);
a stale marker is reclaimed, so acquisition after its removal succeeds,
while a fresh marker naming a live process makes `acquire` return
false. -/
theorem c6_lock_staleness (now : Int) (alive : Int → Bool) (i : LockInfo)
    (env : Nat → LockFile) :
    (isStale now alive (.present i) = true ↔
      (i.modTime + 24 * 3600 < now ∨ parsePid i.content = none ∨
        (∃ pid, parsePid i.content = some pid ∧ alive pid = false)))
    ∧ (env 0 = .present i → isStale now alive (.present i) = true →
        env 1 = .absent → acquireAux now alive env 2 0 = some true)
    ∧ (env 0 = .present i → isStale now alive (.present i) = false →
        ∀ fuel, acquireAux now alive env (fuel + 1) 0 = some false) := by
  refine ⟨?_, ?_, ?_⟩
  · constructor
    · intro h
      simp only [isStale] at h
      by_cases hage : i.modTime + 24 * 3600 < now
      · exact Or.inl hage
      · rw [if_neg hage] at h
        cases hp : parsePid i.content with
        | none => exact Or.inr (Or.inl rfl)
        | some pid =>
            rw [hp] at h
            simp only [Bool.not_eq_true'] at h
            exact Or.inr (Or.inr ⟨pid, rfl, h⟩)
    · intro h
      simp only [isStale]
      rcases h with hage | hp | ⟨pid, hp, hdead⟩
      · rw [if_pos hage]
      · split
        · rfl
        · rw [hp]
      · split
        · rfl
        · rw [hp]
          simp [hdead]
  · intro h0 hs h1
    simp [acquireAux, h0, hs, h1]
  · intro h0 hs fuel
    simp [acquireAux, h0, hs]

theorem c6_lock_staleness_witness :
    (isStale 100000 (fun _ => true) (.present ⟨0, "7"⟩) = true ↔
      ((0 : Int) + 24 * 3600 < 100000 ∨ parsePid "7" = none ∨
        (∃ pid, parsePid "7" = some pid ∧ (fun _ => true) pid = false)))
    ∧ ((fun k => if k = 0 then LockFile.present ⟨0, "7"⟩ else .absent) 0 =
          .present ⟨0, "7"⟩ →
        isStale 100000 (fun _ => true) (.present ⟨0, "7"⟩) = true →
        (fun k => if k = 0 then LockFile.present ⟨0, "7"⟩ else .absent) 1 =
          .absent →
        acquireAux 100000 (fun _ => true)
          (fun k => if k = 0 then LockFile.present ⟨0, "7"⟩ else .absent) 2 0 =
          some true)
    ∧ ((fun k => if k = 0 then LockFile.present ⟨0, "7"⟩ else .absent) 0 =
          .present ⟨0, "7"⟩ →
        isStale 100000 (fun _ => true) (.present ⟨0, "7"⟩) = false →
        ∀ fuel, acquireAux 100000 (fun _ => true)
          (fun k => if k = 0 then LockFile.present ⟨0, "7"⟩ else .absent)
          (fuel + 1) 0 = some false) :=
  c6_lock_staleness 100000 (fun _ => true) ⟨0, "7"⟩
    (fun k => if k = 0 then LockFile.present ⟨0, "7"⟩ else .absent)

/-! ## Empty-directory sweeper (`cleanEmptyDirs`) -/

/-- Directory paths are modelled as segment lists; the Go code computes
a directory's depth as `len(strings.Split(dir, separator))`, which is
the number of segments. -/
abbrev DirPath := List String

/-- One execution of the inner `j` loop of the depth sort in
`cleanEmptyDirs`, for a fixed `i`: the element currently at position `i`
(`x`) is swapped with any later element of strictly greater depth.
Returns the element finally resting at position `i` together with the
updated remainder of the slice. -/
def bubbleInner (x : DirPath) (l : List DirPath) : DirPath × List DirPath :=
  match l with
  | [] => (x, [])
  | y :: ys =>
      if x.length < y.length then
        ((bubbleInner y ys).1, x :: (bubbleInner y ys).2)
      else
        ((bubbleInner x ys).1, y :: (bubbleInner x ys).2)

theorem bubbleInner_snd_length (x : DirPath) (l : List DirPath) :
    (bubbleInner x l).2.length = l.length := by
  induction l generalizing x with
  | nil => rfl
  | cons y ys ih =>
      simp only [bubbleInner]
      split <;> simp [ih]

theorem bubbleInner_perm (x : DirPath) (l : List DirPath) :
    (x :: l).Perm ((bubbleInner x l).1 :: (bubbleInner x l).2) := by
  induction l generalizing x with
  | nil => simp [bubbleInner]
  | cons y ys ih =>
      simp only [bubbleInner]
      split
      · exact (List.Perm.cons x (ih y)).trans
          (List.Perm.swap (bubbleInner y ys).1 x (bubbleInner y ys).2)
      · exact ((List.Perm.swap x y ys).symm.trans
          (List.Perm.cons y (ih x))).trans
          (List.Perm.swap (bubbleInner x ys).1 y (bubbleInner x ys).2)

theorem bubbleInner_le (x : DirPath) (l : List DirPath) :
    x.length ≤ (bubbleInner x l).1.length ∧
      ∀ z ∈ (bubbleInner x l).2, z.length ≤ (bubbleInner x l).1.length := by
  induction l generalizing x with
  | nil => simp [bubbleInner]
  | cons y ys ih =>
      simp only [bubbleInner]
      split
      · rename_i hlt
        refine ⟨le_trans (le_of_lt hlt) (ih y).1, ?_⟩
        intro z hz
        rcases List.mem_cons.mp hz with hz | hz
        · rw [hz]
          exact le_trans (le_of_lt hlt) (ih y).1
        · exact (ih y).2 z hz
      · rename_i hge
        refine ⟨(ih x).1, ?_⟩
        intro z hz
        rcases List.mem_cons.mp hz with hz | hz
        · rw [hz]
          exact le_trans (Nat.le_of_not_lt hge) (ih x).1
        · exact (ih x).2 z hz

/-- Translation of the double loop in `cleanEmptyDirs` that sorts the
touched directories by depth, deepest first (a selection sort: each
outer step moves a maximal-depth element of the remaining slice to the
front). -/
def sortDirs (l : List DirPath) : List DirPath :=
  match l with
  | [] => []
  | x :: xs => (bubbleInner x xs).1 :: sortDirs (bubbleInner x xs).2
termination_by l.length
decreasing_by
  simp only [bubbleInner_snd_length, List.length_cons]
  omega

theorem sortDirs_perm (l : List DirPath) : l.Perm (sortDirs l) := by
  induction l using sortDirs.induct with
  | case1 => simp [sortDirs]
  | case2 x xs ih =>
      rw [sortDirs]
      exact (bubbleInner_perm x xs).trans (List.Perm.cons _ ih)

theorem sortDirs_sorted (l : List DirPath) :
    List.Pairwise (fun a b : DirPath => b.length ≤ a.length) (sortDirs l) := by
  induction l using sortDirs.induct with
  | case1 => simp [sortDirs]
  | case2 x xs ih =>
      rw [sortDirs]
      refine List.Pairwise.cons ?_ ih
      intro z hz
      have hzm : z ∈ (bubbleInner x xs).2 :=
        ((sortDirs_perm (bubbleInner x xs).2).mem_iff).mpr hz
      exact (bubbleInner_le x xs).2 z hzm

/-- State of the source tree as seen by the sweeper: the set of existing
paths (files and directories, as segment lists) and the set of
directories whose `ReadDir` fails with an error other than
not-exist. -/
structure SweepFS where
  nodes : List DirPath
  readFail : List DirPath

/-- The entries of directory `d`: the existing paths directly below
it. -/
def childrenOf (nodes : List DirPath) (d : DirPath) : List DirPath :=
  nodes.filter (fun p => decide (p.length = d.length + 1 ∧ p.take d.length = d))

theorem mem_childrenOf {nodes : List DirPath} {d p : DirPath} :
    p ∈ childrenOf nodes d ↔
      p ∈ nodes ∧ p.length = d.length + 1 ∧ p.take d.length = d := by
  simp [childrenOf]

/-- Translation of the check-and-remove loop of `cleanEmptyDirs`: for
each directory in order, a directory that no longer exists is skipped
(`os.IsNotExist`), a directory whose listing fails aborts the run with
an error naming it, and a directory with no entries is removed.  Returns
the final filesystem and the list of removed directories. -/
def sweep (fs : SweepFS) : List DirPath →
    Except DirPath (SweepFS × List DirPath)
  | [] => .ok (fs, [])
  | d :: ds =>
      if d ∈ fs.nodes then
        if d ∈ fs.readFail then .error d
        else if childrenOf fs.nodes d = [] then
          match sweep ⟨fs.nodes.filter (fun p => decide (p ≠ d)), fs.readFail⟩ ds with
          | .ok (fs2, rem) => .ok (fs2, d :: rem)
          | .error e => .error e
        else sweep fs ds
      else sweep fs ds

theorem sweep_ok_filter {ds : List DirPath} {fs : SweepFS}
    {fs2 : SweepFS} {rem : List DirPath}
    (h : sweep fs ds = .ok (fs2, rem)) :
    fs2.nodes = fs.nodes.filter (fun p => decide (p ∉ rem))
      ∧ (∀ d ∈ rem, d ∈ ds ∧ d ∈ fs.nodes) := by
  induction ds generalizing fs fs2 rem with
  | nil =>
      simp only [sweep, Except.ok.injEq, Prod.mk.injEq] at h
      obtain ⟨h1, h2⟩ := h
      subst h1; subst h2
      constructor
      · simp
      · simp
  | cons d ds ih =>
      simp only [sweep] at h
      by_cases hmem : d ∈ fs.nodes
      · rw [if_pos hmem] at h
        by_cases hrf : d ∈ fs.readFail
        · rw [if_pos hrf] at h
          cases h
        · rw [if_neg hrf] at h
          by_cases hemp : childrenOf fs.nodes d = []
          · rw [if_pos hemp] at h
            cases hrec : sweep ⟨fs.nodes.filter (fun p => decide (p ≠ d)), fs.readFail⟩ ds with
            | error e => rw [hrec] at h; cases h
            | ok r =>
                obtain ⟨fs3, rem3⟩ := r
                rw [hrec] at h
                simp only [Except.ok.injEq, Prod.mk.injEq] at h
                obtain ⟨h1, h2⟩ := h
                subst h1; subst h2
                obtain ⟨hn, hr⟩ := ih hrec
                constructor
                · rw [hn]
                  dsimp only
                  rw [List.filter_filter]
                  apply List.filter_congr
                  intro p _
                  by_cases h1 : p = d <;> by_cases h2 : p ∈ rem3 <;>
                    simp [h1, h2]
                · intro d2 hd2
                  rcases List.mem_cons.mp hd2 with hd2 | hd2
                  · exact ⟨by simp [hd2], hd2 ▸ hmem⟩
                  · obtain ⟨hin, hnod⟩ := hr d2 hd2
                    exact ⟨List.mem_cons_of_mem _ hin,
                      (List.mem_filter.mp hnod).1⟩
          · rw [if_neg hemp] at h
            obtain ⟨hn, hr⟩ := ih h
            exact ⟨hn, fun d2 hd2 =>
              ⟨List.mem_cons_of_mem _ (hr d2 hd2).1, (hr d2 hd2).2⟩⟩
      · rw [if_neg hmem] at h
        obtain ⟨hn, hr⟩ := ih h
        exact ⟨hn, fun d2 hd2 =>
          ⟨List.mem_cons_of_mem _ (hr d2 hd2).1, (hr d2 hd2).2⟩⟩

theorem sweep_ok_iff {ds : List DirPath} {fs : SweepFS}
    (hnd : ds.Nodup) :
    (∃ r, sweep fs ds = .ok r) ↔
      ∀ d ∈ ds, d ∈ fs.nodes → d ∉ fs.readFail := by
  induction ds generalizing fs with
  | nil =>
      constructor
      · intro _ d hd
        cases hd
      · intro _
        exact ⟨(fs, []), rfl⟩
  | cons d ds ih =>
      have hnd2 : ds.Nodup := hnd.of_cons
      have hdd : d ∉ ds := (List.nodup_cons.mp hnd).1
      simp only [sweep]
      by_cases hmem : d ∈ fs.nodes
      · rw [if_pos hmem]
        by_cases hrf : d ∈ fs.readFail
        · rw [if_pos hrf]
          constructor
          · rintro ⟨r, hr⟩
            cases hr
          · intro h
            exact absurd hrf (h d (List.mem_cons_self d ds) hmem)
        · rw [if_neg hrf]
          by_cases hemp : childrenOf fs.nodes d = []
          · rw [if_pos hemp]
            have hiff := @ih ⟨fs.nodes.filter (fun p => decide (p ≠ d)), fs.readFail⟩ hnd2
            constructor
            · rintro ⟨r, hr⟩
              intro d2 hd2 hd2m
              rcases List.mem_cons.mp hd2 with hd2 | hd2
              · exact hd2 ▸ hrf
              · rcases hrec : sweep ⟨fs.nodes.filter (fun p => decide (p ≠ d)), fs.readFail⟩ ds with e | r2
                · rw [hrec] at hr
                  cases hr
                · refine hiff.mp ⟨r2, hrec⟩ d2 hd2 ?_
                  have hne : d2 ≠ d := fun he => hdd (he ▸ hd2)
                  simp [List.mem_filter, hd2m, hne]
            · intro h
              have hrest : ∀ d2 ∈ ds,
                  d2 ∈ (⟨fs.nodes.filter (fun p => decide (p ≠ d)), fs.readFail⟩ : SweepFS).nodes →
                    d2 ∉ fs.readFail := by
                intro d2 hd2 hd2m
                exact h d2 (List.mem_cons_of_mem _ hd2)
                  (List.mem_filter.mp hd2m).1
              obtain ⟨r2, hr2⟩ := hiff.mpr hrest
              obtain ⟨fs3, rem3⟩ := r2
              exact ⟨(fs3, d :: rem3), by rw [hr2]⟩
          · rw [if_neg hemp]
            constructor
            · rintro ⟨r, hr⟩
              intro d2 hd2 hd2m
              rcases List.mem_cons.mp hd2 with hd2 | hd2
              · exact hd2 ▸ hrf
              · exact (ih hnd2).mp ⟨r, hr⟩ d2 hd2 hd2m
            · intro h
              exact (ih hnd2).mpr
                (fun d2 hd2 hd2m => h d2 (List.mem_cons_of_mem _ hd2) hd2m)
      · rw [if_neg hmem]
        constructor
        · rintro ⟨r, hr⟩
          intro d2 hd2 hd2m
          rcases List.mem_cons.mp hd2 with hd2 | hd2
          · exact absurd (hd2 ▸ hd2m) hmem
          · exact (ih hnd2).mp ⟨r, hr⟩ d2 hd2 hd2m
        · intro h
          exact (ih hnd2).mpr
            (fun d2 hd2 hd2m => h d2 (List.mem_cons_of_mem _ hd2) hd2m)

theorem sweep_no_empty_left {ds : List DirPath} {fs : SweepFS}
    {fs2 : SweepFS} {rem : List DirPath}
    (h : sweep fs ds = .ok (fs2, rem))
    (hsorted : List.Pairwise (fun a b : DirPath => b.length ≤ a.length) ds) :
    ∀ d ∈ ds, d ∈ fs2.nodes → childrenOf fs2.nodes d ≠ [] := by
  induction ds generalizing fs fs2 rem with
  | nil =>
      intro d hd
      cases hd
  | cons d ds ih =>
      have hhead := List.pairwise_cons.mp hsorted
      simp only [sweep] at h
      by_cases hmem : d ∈ fs.nodes
      · rw [if_pos hmem] at h
        by_cases hrf : d ∈ fs.readFail
        · rw [if_pos hrf] at h
          cases h
        · rw [if_neg hrf] at h
          by_cases hemp : childrenOf fs.nodes d = []
          · rw [if_pos hemp] at h
            rcases hrec : sweep ⟨fs.nodes.filter (fun p => decide (p ≠ d)), fs.readFail⟩ ds with e | r2
            · rw [hrec] at h
              cases h
            · obtain ⟨fs3, rem3⟩ := r2
              rw [hrec] at h
              simp only [Except.ok.injEq, Prod.mk.injEq] at h
              obtain ⟨h1, h2⟩ := h
              subst h1
              intro d2 hd2 hd2m
              rcases List.mem_cons.mp hd2 with hd2 | hd2
              · subst hd2
                exfalso
                have hsub := (sweep_ok_filter hrec).1
                rw [hsub] at hd2m
                have := (List.mem_filter.mp hd2m).1
                have := (List.mem_filter.mp this).2
                simp at this
              · exact ih hrec hhead.2 d2 hd2 hd2m
          · rw [if_neg hemp] at h
            intro d2 hd2 hd2m
            rcases List.mem_cons.mp hd2 with hd2 | hd2
            · subst hd2
              obtain ⟨c, hc⟩ := List.exists_mem_of_ne_nil _ hemp
              obtain ⟨hcn, hcl, hct⟩ := mem_childrenOf.mp hc
              intro hnil
              have hcrem : c ∉ rem := by
                intro hcr
                obtain ⟨hcds, _⟩ := (sweep_ok_filter h).2 c hcr
                have := hhead.1 c hcds
                omega
              have hcfs2 : c ∈ fs2.nodes := by
                rw [(sweep_ok_filter h).1]
                exact List.mem_filter.mpr ⟨hcn, by simpa using hcrem⟩
              have : c ∈ childrenOf fs2.nodes d2 :=
                mem_childrenOf.mpr ⟨hcfs2, hcl, hct⟩
              rw [hnil] at this
              cases this
            · exact ih h hhead.2 d2 hd2 hd2m
      · rw [if_neg hmem] at h
        intro d2 hd2 hd2m
        rcases List.mem_cons.mp hd2 with hd2 | hd2
        · subst hd2
          exfalso
          refine hmem ?_
          rw [(sweep_ok_filter h).1] at hd2m
          exact (List.mem_filter.mp hd2m).1
        · exact ih h hhead.2 d2 hd2 hd2m

theorem sweep_removed_empty {ds : List DirPath} {fs : SweepFS}
    {fs2 : SweepFS} {rem : List DirPath}
    (h : sweep fs ds = .ok (fs2, rem)) :
    ∀ d ∈ rem, childrenOf fs2.nodes d = [] := by
  induction ds generalizing fs fs2 rem with
  | nil =>
      simp only [sweep, Except.ok.injEq, Prod.mk.injEq] at h
      obtain ⟨h1, h2⟩ := h
      subst h2
      intro d hd
      cases hd
  | cons d ds ih =>
      simp only [sweep] at h
      by_cases hmem : d ∈ fs.nodes
      · rw [if_pos hmem] at h
        by_cases hrf : d ∈ fs.readFail
        · rw [if_pos hrf] at h
          cases h
        · rw [if_neg hrf] at h
          by_cases hemp : childrenOf fs.nodes d = []
          · rw [if_pos hemp] at h
            rcases hrec : sweep ⟨fs.nodes.filter (fun p => decide (p ≠ d)), fs.readFail⟩ ds with e | r2
            · rw [hrec] at h
              cases h
            · obtain ⟨fs3, rem3⟩ := r2
              rw [hrec] at h
              simp only [Except.ok.injEq, Prod.mk.injEq] at h
              obtain ⟨h1, h2⟩ := h
              subst h1
              subst h2
              intro d2 hd2
              rcases List.mem_cons.mp hd2 with hd2 | hd2
              · subst hd2
                rw [List.eq_nil_iff_forall_not_mem]
                intro c hc
                obtain ⟨hcn, hcl, hct⟩ := mem_childrenOf.mp hc
                rw [(sweep_ok_filter hrec).1] at hcn
                have hc1 := (List.mem_filter.mp hcn).1
                have hc2 := (List.mem_filter.mp hc1).1
                have : c ∈ childrenOf fs.nodes d2 :=
                  mem_childrenOf.mpr ⟨hc2, hcl, hct⟩
                rw [hemp] at this
                cases this
              · exact ih hrec d2 hd2
          · rw [if_neg hemp] at h
            exact ih h
      · rw [if_neg hmem] at h
        exact ih h

/-- Claim C9: the sweep visits the touched directories deepest-first
(the depth sort yields a permutation that is non-increasing in segment
count), it succeeds exactly when no visited, still-existing directory
fails to read (a directory that no longer exists is treated as already
clean), and on success it only ever removes visited, initially existing
directories, every removed directory has no remaining entries, and no
visited directory is left behind both present and empty — i.e. exactly
the directories that were empty when visited were removed. -/
theorem c9_clean_empty_dirs (dirs : List DirPath) (fs : SweepFS)
    (hnd : dirs.Nodup) :
    (sortDirs dirs).Perm dirs
    ∧ List.Pairwise (fun a b : DirPath => b.length ≤ a.length) (sortDirs dirs)
    ∧ ((∃ r, sweep fs (sortDirs dirs) = .ok r) ↔
        ∀ d ∈ dirs, d ∈ fs.nodes → d ∉ fs.readFail)
    ∧ (∀ fs2 rem, sweep fs (sortDirs dirs) = .ok (fs2, rem) →
        fs2.nodes = fs.nodes.filter (fun p => decide (p ∉ rem))
        ∧ (∀ d ∈ rem, d ∈ dirs ∧ d ∈ fs.nodes)
        ∧ (∀ d ∈ rem, childrenOf fs2.nodes d = [])
        ∧ (∀ d ∈ dirs, d ∈ fs2.nodes → childrenOf fs2.nodes d ≠ [])) := by
  have hperm : (sortDirs dirs).Perm dirs := (sortDirs_perm dirs).symm
  have hnd2 : (sortDirs dirs).Nodup := hperm.nodup_iff.mpr hnd
  refine ⟨hperm, sortDirs_sorted dirs, ?_, ?_⟩
  · rw [sweep_ok_iff hnd2]
    constructor
    · intro h d hd
      exact h d (hperm.symm.subset hd)
    · intro h d hd
      exact h d (hperm.subset hd)
  · intro fs2 rem hok
    obtain ⟨hn, hr⟩ := sweep_ok_filter hok
    refine ⟨hn, ?_, ?_, ?_⟩
    · intro d hd
      obtain ⟨hd1, hd2⟩ := hr d hd
      exact ⟨hperm.subset hd1, hd2⟩
    · exact sweep_removed_empty hok
    · intro d hd
      exact sweep_no_empty_left hok (sortDirs_sorted dirs) d (hperm.symm.subset hd)

theorem c9_clean_empty_dirs_witness :
    ([["a"], ["a", "b"]] : List DirPath).Nodup ∧
      ((sortDirs [["a"], ["a", "b"]]).Perm [["a"], ["a", "b"]]
      ∧ List.Pairwise (fun a b : DirPath => b.length ≤ a.length)
          (sortDirs [["a"], ["a", "b"]])
      ∧ ((∃ r, sweep ⟨[["a"], ["a", "b"]], []⟩ (sortDirs [["a"], ["a", "b"]]) = .ok r) ↔
          ∀ d ∈ [["a"], ["a", "b"]],
            d ∈ (⟨[["a"], ["a", "b"]], []⟩ : SweepFS).nodes →
              d ∉ (⟨[["a"], ["a", "b"]], []⟩ : SweepFS).readFail)
      ∧ (∀ fs2 rem,
          sweep ⟨[["a"], ["a", "b"]], []⟩ (sortDirs [["a"], ["a", "b"]]) = .ok (fs2, rem) →
          fs2.nodes = (⟨[["a"], ["a", "b"]], []⟩ : SweepFS).nodes.filter
              (fun p => decide (p ∉ rem))
          ∧ (∀ d ∈ rem, d ∈ [["a"], ["a", "b"]] ∧
              d ∈ (⟨[["a"], ["a", "b"]], []⟩ : SweepFS).nodes)
          ∧ (∀ d ∈ rem, childrenOf fs2.nodes d = [])
          ∧ (∀ d ∈ [["a"], ["a", "b"]], d ∈ fs2.nodes →
              childrenOf fs2.nodes d ≠ []))) :=
  ⟨by decide, c9_clean_empty_dirs [["a"], ["a", "b"]] ⟨[["a"], ["a", "b"]], []⟩ (by decide)⟩

/-! ## Relocation pipeline data model (processor.go) -/

/-- Calendar timestamp with the components the pipeline formats
(`Year`/`Month`/`Day`/`Hour`/`Minute` plus seconds for the synthesized
filename). -/
structure DateTime where
  year : Nat
  month : Nat
  day : Nat
  hour : Nat
  minute : Nat
  second : Nat
deriving DecidableEq, Repr

/-- Per-file data: contents as a byte list (its length is the size
`os.FileInfo.Size` reports), permission bits, and modification time. -/
structure FileData where
  content : List Nat
  mode : Nat
  modTime : DateTime
deriving DecidableEq, Repr

/-- The filesystem seen by the pipeline: a partial map from path
strings to file data. -/
def FS := String → Option FileData

def fsWrite (fs : FS) (p : String) (d : FileData) : FS :=
  fun q => if q = p then some d else fs q

def fsRemove (fs : FS) (p : String) : FS :=
  fun q => if q = p then none else fs q

/-- Run configuration (config.go `Config`), with media types as an
association list since Go map iteration order is not semantically
relevant to the claims (first match wins either way). -/
structure Config where
  folderTemplate : String
  mediaTypes : List (String × List String)
  useOriginalName : Bool
  loggingEnabled : Bool

/-- External collaborators of a run: whether `exiftool -ver` succeeds,
the raw output of `exiftool -DateTimeOriginal -DateTime -s -s -s` per
path (`none` models a failing execution), and the SHA-256 digest as an
uninterpreted function of the content bytes. -/
structure Env where
  exiftoolOK : Bool
  exifOut : String → Option String
  hashFn : List Nat → List Nat

/-- Statistics accumulator (stats.go `Stats`); `StartTime` is omitted as
it is only used for the elapsed-time display. -/
structure Stats where
  ImageCount : Nat
  VideoCount : Nat
  ExifFound : Nat
  TotalSize : Nat
  ProcessedFiles : Nat
deriving DecidableEq, Repr

/-- Mutable processor state threaded through the walk: the filesystem,
the statistics, the touched-directory set (Go map, modelled as a
duplicate-free insertion list), the processed-file ledger, the log
lines, and the exiftool-checked-once flag. -/
structure PState where
  fs : FS
  stats : Stats
  processedDirs : List String
  processedFiles : List String
  logs : List String
  exiftoolChecked : Bool

/-- What happened to one walked entry. -/
inductive Outcome where
  | skippedDir
  | unrecognized
  | skippedIdentical
  | copied
  | copiedDeleted
deriving DecidableEq, Repr

/-- Template variables (processor.go `FileInfo`). -/
structure FileInfo where
  Year : String
  Month : String
  Day : String
  Hour : String
  Minute : String
  MediaType : String
  Extension : String

/-! ### String helpers mirroring the Go standard library calls -/

/-- Zero-pad to two digits, as Go layouts `01`, `02`, `15`, `04`,
`05` do. -/
def pad2 (n : Nat) : String :=
  if n < 10 then "0" ++ toString n else toString n

/-- Zero-pad to four digits, as the Go year layout `2006` does. -/
def pad4 (n : Nat) : String :=
  if n < 10 then "000" ++ toString n
  else if n < 100 then "00" ++ toString n
  else if n < 1000 then "0" ++ toString n
  else toString n

/-- ASCII whitespace for `strings.TrimSpace`. -/
def isSpaceCh (c : Char) : Bool :=
  c = ' ' || c = '\n' || c = '\t' || c = '\r'

/-- `strings.TrimSpace` (ASCII whitespace suffices here: the trimmed
text is exiftool output). -/
def trimSpace (s : String) : String :=
  String.mk (((s.toList.dropWhile isSpaceCh).reverse.dropWhile isSpaceCh).reverse)

/-- `strings.ToLower`, charwise. -/
def toLowerStr (s : String) : String :=
  String.mk (s.toList.map Char.toLower)

/-- Drop the first character (`s[1:]` on the ASCII strings involved). -/
def dropOne (s : String) : String := String.mk (s.toList.drop 1)

/-- `filepath.Ext`: the suffix of the last path element starting at its
final dot, empty when the last element has no dot. -/
def goExt (path : String) : String :=
  let seg := path.toList.foldl (fun acc c => if c = '/' then [] else acc ++ [c]) []
  if seg.contains '.' then
    String.mk ('.' :: (seg.reverse.takeWhile (fun c => c ≠ '.')).reverse)
  else ""

/-- `filepath.Base`: the last path element. -/
def goBase (path : String) : String :=
  let seg := path.toList.foldl (fun acc c => if c = '/' then [] else acc ++ [c]) []
  if path = "" then "."
  else if seg = [] then "/"
  else String.mk seg

/-- `filepath.Dir`: everything before the last separator. -/
def goDir (path : String) : String :=
  let pre := (path.toList.reverse.dropWhile (fun c => c ≠ '/')).reverse
  if ¬ path.toList.contains '/' then "."
  else if pre = ['/'] then "/"
  else String.mk (pre.dropLast)

/-- `filepath.Join` of two components (path cleaning is irrelevant for
the claims and elided). -/
def joinPath (a b : String) : String :=
  if a = "" then b else if b = "" then a else a ++ "/" ++ b

/-- Parse the fixed exiftool layout `YYYY:MM:DD HH:MM:SS`
(`time.Parse("2006:01:02 15:04:05", s)`; calendar range validation is
not modelled, no claim depends on it). -/
def parseExifDate (s : String) : Option DateTime :=
  match s.toList with
  | [y1, y2, y3, y4, a, mo1, mo2, b, d1, d2, c, h1, h2, e, mi1, mi2, f, s1, s2] =>
      if a = ':' && b = ':' && c = ' ' && e = ':' && f = ':'
          && isDigitCh y1 && isDigitCh y2 && isDigitCh y3 && isDigitCh y4
          && isDigitCh mo1 && isDigitCh mo2 && isDigitCh d1 && isDigitCh d2
          && isDigitCh h1 && isDigitCh h2 && isDigitCh mi1 && isDigitCh mi2
          && isDigitCh s1 && isDigitCh s2 then
        some ⟨digitsVal [y1, y2, y3, y4], digitsVal [mo1, mo2],
          digitsVal [d1, d2], digitsVal [h1, h2], digitsVal [mi1, mi2],
          digitsVal [s1, s2]⟩
      else none
  | _ => none

/-- Go string slicing `s[1:]`: panics (modelled as `none`) when the
string is empty. -/
def goSliceFromOne (s : String) : Option String :=
  if s = "" then none else some (dropOne s)

/-- Substitution of the named template placeholders, mirroring what
`text/template` does for the templates this program accepts (the seven
documented fields, written `\x7b\x7b.Name\x7d\x7d`). -/
def renderChars : List Char → FileInfo → List Char
  | [], _ => []
  | '{' :: '{' :: '.' :: 'Y' :: 'e' :: 'a' :: 'r' :: '}' :: '}' :: rest, fi =>
      fi.Year.toList ++ renderChars rest fi
  | '{' :: '{' :: '.' :: 'M' :: 'o' :: 'n' :: 't' :: 'h' :: '}' :: '}' :: rest, fi =>
      fi.Month.toList ++ renderChars rest fi
  | '{' :: '{' :: '.' :: 'D' :: 'a' :: 'y' :: '}' :: '}' :: rest, fi =>
      fi.Day.toList ++ renderChars rest fi
  | '{' :: '{' :: '.' :: 'H' :: 'o' :: 'u' :: 'r' :: '}' :: '}' :: rest, fi =>
      fi.Hour.toList ++ renderChars rest fi
  | '{' :: '{' :: '.' :: 'M' :: 'i' :: 'n' :: 'u' :: 't' :: 'e' :: '}' :: '}' :: rest, fi =>
      fi.Minute.toList ++ renderChars rest fi
  | '{' :: '{' :: '.' :: 'M' :: 'e' :: 'd' :: 'i' :: 'a' :: 'T' :: 'y' :: 'p' :: 'e' :: '}' :: '}' :: rest, fi =>
      fi.MediaType.toList ++ renderChars rest fi
  | '{' :: '{' :: '.' :: 'E' :: 'x' :: 't' :: 'e' :: 'n' :: 's' :: 'i' :: 'o' :: 'n' :: '}' :: '}' :: rest, fi =>
      fi.Extension.toList ++ renderChars rest fi
  | ch :: rest, fi => ch :: renderChars rest fi

def renderTemplate (tmpl : String) (fi : FileInfo) : String :=
  String.mk (renderChars tmpl.toList fi)

/-! ### Processor operations -/

/-- 1 MiB buffer used for copying and hashing (`copyBufferSize`). -/
def copyBufferSize : Nat := 1024 * 1024

/-- `Processor.getMediaType`: the first configured category whose
extension list contains `ext`; empty string when none does. -/
def getMediaType (cfg : Config) (ext : String) : String :=
  match cfg.mediaTypes.find? (fun m => m.2.contains ext) with
  | some m => m.1
  | none => ""

/-- `Processor.getFileDate`.  The first call of a run probes
`exiftool -ver` (`checkExiftool`); a probe failure is returned as an
error.  Otherwise the per-file invocation's output is trimmed; an empty
result or a parse failure is an error.  Returns the updated
checked-once flag together with the result. -/
def getFileDate (env : Env) (checked : Bool) (path : String) :
    Bool × Except Unit DateTime :=
  if !checked && !env.exiftoolOK then (true, .error ())
  else
    match env.exifOut path with
    | none => (true, .error ())
    | some out =>
        if trimSpace out = "" then (true, .error ())
        else
          match parseExifDate (trimSpace out) with
          | some d => (true, .ok d)
          | none => (true, .error ())

/-- The successive reads of the 1 MiB-buffer loop in
`calculateFileHash`, with an explicit fuel bound making the loop
structurally recursive (each pass through a non-empty file consumes at
least one byte, so `content.length` passes suffice). -/
def readChunksF : Nat → Nat → List Nat → List (List Nat)
  | 0, _, _ => []
  | _ + 1, _, [] => []
  | fuel + 1, n, c :: rest =>
      if n = 0 then []
      else (c :: rest).take n :: readChunksF fuel n ((c :: rest).drop n)

def readChunks (n : Nat) (content : List Nat) : List (List Nat) :=
  readChunksF content.length n content

/-- `Processor.calculateFileHash`: stream the contents through the
fixed-size buffer into the digest. -/
def calculateFileHash (env : Env) (content : List Nat) : List Nat :=
  env.hashFn (readChunks copyBufferSize content).flatten

/-- `Processor.areFilesIdentical`, instrumented with the number of
digest computations performed.  `.error ()` models the only I/O error
arising in the model: a `stat` failing because the file does not exist
(the caller treats it as "no identical destination yet"). -/
def areFilesIdenticalC (env : Env) (fs : FS) (src dst : String) :
    Except Unit Bool × Nat :=
  match fs dst with
  | none => (.error (), 0)
  | some dstInfo =>
      match fs src with
      | none => (.error (), 0)
      | some srcInfo =>
          if srcInfo.content.length ≠ dstInfo.content.length then (.ok false, 0)
          else (.ok (calculateFileHash env srcInfo.content =
            calculateFileHash env dstInfo.content), 2)

def areFilesIdentical (env : Env) (fs : FS) (src dst : String) :
    Except Unit Bool :=
  (areFilesIdenticalC env fs src dst).1

/-- Statistics update of `processFile` for one recognized file:
total count, category count (images / videos only), cumulative size. -/
def statBump (mt : String) (info : FileData) (s : Stats) : Stats :=
  { s with
    ProcessedFiles := s.ProcessedFiles + 1
    ImageCount := if mt = "images" then s.ImageCount + 1 else s.ImageCount
    VideoCount := if mt = "images" then s.VideoCount
      else if mt = "videos" then s.VideoCount + 1 else s.VideoCount
    TotalSize := s.TotalSize + info.content.length }

/-- Go map insertion `p.processedDirs[dir] = true`. -/
def insertDir (l : List String) (d : String) : List String :=
  if d ∈ l then l else l ++ [d]

/-- Append a log line when logging is enabled. -/
def logIf (cfg : Config) (logs : List String) (msg : String) : List String :=
  if cfg.loggingEnabled then logs ++ [msg] else logs

def warnExifMsg (path : String) : String :=
  "Warning: Could not get EXIF data for " ++ path ++
    ", using file modification time"

def skipIdenticalMsg (path : String) : String :=
  "Skipping identical file: " ++ path

def movedMsg (path newPath : String) : String :=
  "Moved " ++ path ++ " to " ++ newPath

def copiedMsg (path newPath : String) : String :=
  "Copied " ++ path ++ " to " ++ newPath

/-- The synthesized filename
`fmt.Sprintf("%s-%s-%s%s", date.Format("20060102"), date.Format("150405"), mediaType, ext)`. -/
def synthName (date : DateTime) (mt ext : String) : String :=
  pad4 date.year ++ pad2 date.month ++ pad2 date.day ++ "-"
    ++ pad2 date.hour ++ pad2 date.minute ++ pad2 date.second
    ++ "-" ++ mt ++ ext

deriving instance DecidableEq for Except

/-- `Processor.processFile`, the per-entry walk callback.  `none` models
a Go panic (the `ext[1:]` slice on an empty extension).  The walk
supplies `info` stat'd from the same filesystem, so the copy step's
re-read of the source yields `info.content` and is elided.  An identity
comparison error is the destination-missing case and falls through to
the copy, as the `os.IsNotExist` test in the source does. -/
def processFile (env : Env) (cfg : Config) (deleteSource : Bool)
    (targetDir : String) (st : PState) (path : String) (isDir : Bool)
    (info : FileData) : Option (PState × Outcome) :=
  if isDir then some (st, .skippedDir)
  else
    let ext := toLowerStr (goExt path)
    let mediaType := getMediaType cfg ext
    if mediaType = "" then some (st, .unrecognized)
    else
      let st1 : PState := { st with
        processedDirs := insertDir st.processedDirs (goDir path)
        stats := statBump mediaType info st.stats }
      let dres := getFileDate env st.exiftoolChecked path
      let st2 : PState := { st1 with exiftoolChecked := dres.1 }
      let dp : DateTime × PState :=
        match dres.2 with
        | .error _ =>
            (info.modTime,
              { st2 with logs := logIf cfg st2.logs (warnExifMsg path) })
        | .ok d =>
            (d, { st2 with stats :=
              { st2.stats with ExifFound := st2.stats.ExifFound + 1 } })
      let date := dp.1
      let st3 := dp.2
      match goSliceFromOne ext with
      | none => none
      | some extNoDot =>
          let fi : FileInfo := ⟨pad4 date.year, pad2 date.month,
            pad2 date.day, pad2 date.hour, pad2 date.minute, mediaType,
            extNoDot⟩
          let newDir := joinPath targetDir
            (renderTemplate cfg.folderTemplate fi)
          let filename :=
            if cfg.useOriginalName then goBase path
            else synthName date mediaType ext
          let newPath := joinPath newDir filename
          if areFilesIdentical env st3.fs path newPath = .ok true then
              let st4 := { st3 with
                logs := logIf cfg st3.logs (skipIdenticalMsg path) }
              if deleteSource then
                some ({ st4 with fs := fsRemove st4.fs path },
                  .skippedIdentical)
              else some (st4, .skippedIdentical)
          else
              let copied : FileData := ⟨info.content, info.mode, info.modTime⟩
              let st5 := { st3 with fs := fsWrite st3.fs newPath copied }
              if deleteSource then
                some ({ st5 with
                  fs := fsRemove st5.fs path
                  logs := logIf cfg st5.logs (movedMsg path newPath)
                  processedFiles := st5.processedFiles ++ [newPath] },
                  .copiedDeleted)
              else
                some ({ st5 with
                  logs := logIf cfg st5.logs (copiedMsg path newPath)
                  processedFiles := st5.processedFiles ++ [newPath] },
                  .copied)

/-- The walk over the source tree (`filepath.Walk` restricted to the
regular files it visits, in its stable lexical order): each file is
stat'd from the current filesystem and handed to `processFile`; a
missing file or a panic aborts the run (`none`).  Returns the final
state and the per-file outcomes. -/
def runWalk (env : Env) (cfg : Config) (deleteSource : Bool)
    (targetDir : String) :
    List String → PState → Option (PState × List (String × Outcome))
  | [], st => some (st, [])
  | f :: rest, st =>
      match st.fs f with
      | none => none
      | some info =>
          match processFile env cfg deleteSource targetDir st f false info with
          | none => none
          | some (st2, o) =>
              match runWalk env cfg deleteSource targetDir rest st2 with
              | none => none
              | some (st3, outs) => some (st3, (f, o) :: outs)

def initStats : Stats := ⟨0, 0, 0, 0, 0⟩

/-- Fresh processor state (`NewProcessor`): zero statistics, empty
touched-set, empty ledger, exiftool not yet probed. -/
def initState (fs : FS) : PState := ⟨fs, initStats, [], [], [], false⟩

/-- `DefaultConfig` from config.go. -/
def DefaultConfig : Config :=
  { folderTemplate := "\x7b\x7b.Year\x7d\x7d/\x7b\x7b.Month\x7d\x7d"
    mediaTypes := [("images", [".jpg", ".jpeg", ".png", ".gif", ".heic"]),
      ("videos", [".mp4", ".mov", ".avi"])]
    useOriginalName := true
    loggingEnabled := true }

/-! ### Pure views of the per-file computation, used to state theorems -/

/-- The lowercased extension `processFile` classifies by. -/
def extOf (path : String) : String := toLowerStr (goExt path)

/-- The timestamp `processFile` ends up using: the resolver's result, or
the file's modification time as fallback. -/
def resolvedDate (env : Env) (checked : Bool) (path : String)
    (info : FileData) : DateTime :=
  match (getFileDate env checked path).2 with
  | .ok d => d
  | .error _ => info.modTime

/-- The destination path `processFile` derives for a recognized file. -/
def destPath (env : Env) (cfg : Config) (targetDir : String)
    (checked : Bool) (path : String) (info : FileData) : String :=
  let ext := extOf path
  let mediaType := getMediaType cfg ext
  let date := resolvedDate env checked path info
  let fi : FileInfo := ⟨pad4 date.year, pad2 date.month, pad2 date.day,
    pad2 date.hour, pad2 date.minute, mediaType, dropOne ext⟩
  let newDir := joinPath targetDir (renderTemplate cfg.folderTemplate fi)
  let filename := if cfg.useOriginalName then goBase path
    else synthName date mediaType ext
  joinPath newDir filename

/-- The state after classification, statistics update and date
resolution, before the identity check. -/
def afterDateState (env : Env) (cfg : Config) (st : PState) (mt : String)
    (path : String) (info : FileData) : PState :=
  let st1 : PState := { st with
    processedDirs := insertDir st.processedDirs (goDir path)
    stats := statBump mt info st.stats }
  let dres := getFileDate env st.exiftoolChecked path
  let st2 : PState := { st1 with exiftoolChecked := dres.1 }
  match dres.2 with
  | .error _ => { st2 with logs := logIf cfg st2.logs (warnExifMsg path) }
  | .ok _ => { st2 with stats :=
      { st2.stats with ExifFound := st2.stats.ExifFound + 1 } }

/-- The outcome of `processFile` on a recognized file, phrased with the
pure views above. -/
def processRecognized (env : Env) (cfg : Config) (del : Bool)
    (target : String) (st : PState) (path : String) (info : FileData) :
    PState × Outcome :=
  let mt := getMediaType cfg (extOf path)
  let stA := afterDateState env cfg st mt path info
  let d := destPath env cfg target st.exiftoolChecked path info
  if areFilesIdentical env st.fs path d = .ok true then
      let stB := { stA with logs := logIf cfg stA.logs (skipIdenticalMsg path) }
      (if del then { stB with fs := fsRemove stB.fs path } else stB,
        .skippedIdentical)
  else
      let copied : FileData := ⟨info.content, info.mode, info.modTime⟩
      let stB := { stA with fs := fsWrite stA.fs d copied }
      if del then
        ({ stB with
          fs := fsRemove stB.fs path
          logs := logIf cfg stB.logs (movedMsg path d)
          processedFiles := stB.processedFiles ++ [d] }, .copiedDeleted)
      else
        ({ stB with
          logs := logIf cfg stB.logs (copiedMsg path d)
          processedFiles := stB.processedFiles ++ [d] }, .copied)

theorem goSliceFromOne_ne {s : String} (h : s ≠ "") :
    goSliceFromOne s = some (dropOne s) := by
  simp [goSliceFromOne, h]

theorem afterDateState_fs (env : Env) (cfg : Config) (st : PState)
    (mt path : String) (info : FileData) :
    (afterDateState env cfg st mt path info).fs = st.fs := by
  unfold afterDateState
  rcases hgd : getFileDate env st.exiftoolChecked path with ⟨b, r⟩
  rcases r with e | d <;> rfl

theorem afterDateState_processedFiles (env : Env) (cfg : Config)
    (st : PState) (mt path : String) (info : FileData) :
    (afterDateState env cfg st mt path info).processedFiles =
      st.processedFiles := by
  unfold afterDateState
  rcases hgd : getFileDate env st.exiftoolChecked path with ⟨b, r⟩
  rcases r with e | d <;> rfl

theorem afterDateState_ProcessedFiles (env : Env) (cfg : Config)
    (st : PState) (mt path : String) (info : FileData) :
    (afterDateState env cfg st mt path info).stats.ProcessedFiles =
      st.stats.ProcessedFiles + 1 := by
  unfold afterDateState
  rcases hgd : getFileDate env st.exiftoolChecked path with ⟨b, r⟩
  rcases r with e | d <;> rfl

/-- `processFile` on a recognized file with a nonempty extension reduces
to `processRecognized`. -/
theorem processFile_recognized (env : Env) (cfg : Config) (del : Bool)
    (target : String) (st : PState) (path : String) (info : FileData)
    (hmt : getMediaType cfg (extOf path) ≠ "")
    (hext : extOf path ≠ "") :
    processFile env cfg del target st path false info =
      some (processRecognized env cfg del target st path info) := by
  have hmt2 : getMediaType cfg (toLowerStr (goExt path)) ≠ "" := hmt
  have hext2 : toLowerStr (goExt path) ≠ "" := hext
  unfold processFile processRecognized destPath afterDateState resolvedDate extOf
  simp only [Bool.false_eq_true, if_false, goSliceFromOne_ne hext2, hmt2,
    ite_false]
  rcases hgd : getFileDate env st.exiftoolChecked path with ⟨b, r⟩
  rcases r with e | d <;> dsimp only <;> (repeat' split) <;> rfl

theorem readChunksF_flatten (n : Nat) (hn : 0 < n) :
    ∀ (fuel : Nat) (content : List Nat), content.length ≤ fuel →
      (readChunksF fuel n content).flatten = content := by
  intro fuel
  induction fuel with
  | zero =>
      intro content hc
      have h0 : content = [] := List.eq_nil_of_length_eq_zero (Nat.le_zero.mp hc)
      subst h0
      rfl
  | succ k ih =>
      intro content hc
      match content with
      | [] => rfl
      | c :: rest =>
          rw [readChunksF, if_neg (Nat.pos_iff_ne_zero.mp hn),
            List.flatten_cons,
            ih ((c :: rest).drop n)
              (by simp only [List.length_drop, List.length_cons]
                  simp only [List.length_cons] at hc
                  omega)]
          exact List.take_append_drop n (c :: rest)

/-- The buffered read loop hashes exactly the file's contents: the
chunks concatenate back to the content. -/
theorem calculateFileHash_eq (env : Env) (content : List Nat) :
    calculateFileHash env content = env.hashFn content := by
  unfold calculateFileHash readChunks
  rw [readChunksF_flatten copyBufferSize
    (by norm_num [copyBufferSize]) content.length content le_rfl]

/-- Claim C3: when source and destination both exist, the identity
comparator returns true iff the two files have the same byte size and
the same SHA-256 content digest, and a size mismatch short-circuits:
the comparator returns false having computed no digest. -/
theorem c3_identity_comparator (env : Env) (fs : FS) (src dst : String)
    (srcInfo dstInfo : FileData)
    (hs : fs src = some srcInfo) (hd : fs dst = some dstInfo) :
    (areFilesIdentical env fs src dst = .ok true ↔
      (srcInfo.content.length = dstInfo.content.length ∧
        env.hashFn srcInfo.content = env.hashFn dstInfo.content))
    ∧ (srcInfo.content.length ≠ dstInfo.content.length →
        areFilesIdenticalC env fs src dst = (.ok false, 0)) := by
  unfold areFilesIdentical areFilesIdenticalC
  constructor
  · by_cases hlen : srcInfo.content.length = dstInfo.content.length
    · simp [hs, hd, hlen, calculateFileHash_eq]
    · simp [hs, hd, hlen]
  · intro hne
    simp [hs, hd, hne]

theorem c3_identity_comparator_witness :
    ((fun p => if p = "s" then some (⟨[7], 0, ⟨2025, 1, 1, 0, 0, 0⟩⟩ : FileData)
        else if p = "d" then some ⟨[7], 9, ⟨2024, 1, 1, 0, 0, 0⟩⟩
        else none) : FS) "s" = some ⟨[7], 0, ⟨2025, 1, 1, 0, 0, 0⟩⟩
    ∧ ((areFilesIdentical ⟨true, fun _ => none, id⟩
        (fun p => if p = "s" then some ⟨[7], 0, ⟨2025, 1, 1, 0, 0, 0⟩⟩
          else if p = "d" then some ⟨[7], 9, ⟨2024, 1, 1, 0, 0, 0⟩⟩
          else none) "s" "d" = .ok true ↔
        (([7] : List Nat).length = ([7] : List Nat).length ∧
          id ([7] : List Nat) = id ([7] : List Nat)))
      ∧ (([7] : List Nat).length ≠ ([7] : List Nat).length →
          areFilesIdenticalC ⟨true, fun _ => none, id⟩
            (fun p => if p = "s" then some ⟨[7], 0, ⟨2025, 1, 1, 0, 0, 0⟩⟩
              else if p = "d" then some ⟨[7], 9, ⟨2024, 1, 1, 0, 0, 0⟩⟩
              else none) "s" "d" = (.ok false, 0))) :=
  ⟨by decide,
    c3_identity_comparator ⟨true, fun _ => none, id⟩ _ "s" "d"
      ⟨[7], 0, ⟨2025, 1, 1, 0, 0, 0⟩⟩ ⟨[7], 9, ⟨2024, 1, 1, 0, 0, 0⟩⟩
      (by decide) (by decide)⟩

/-- A file whose lowercased extension is in no configured category list
is returned untouched: same state, `unrecognized` outcome. -/
theorem processFile_unrecognized (env : Env) (cfg : Config) (del : Bool)
    (target : String) (st : PState) (path : String) (info : FileData)
    (h : getMediaType cfg (extOf path) = "") :
    processFile env cfg del target st path false info =
      some (st, .unrecognized) := by
  simp only [extOf] at h
  unfold processFile
  simp only [Bool.false_eq_true, if_false, h, ite_true]

/-- Claim C8: a file with an unrecognized extension leaves all state
unchanged — no statistics, no touched-directory entry, no copy, no
deletion, no ledger entry, no log line — and processing continues
without error. -/
theorem c8_unrecognized_frame (env : Env) (cfg : Config) (del : Bool)
    (target : String) (st : PState) (path : String) (info : FileData)
    (h : getMediaType cfg (extOf path) = "") :
    processFile env cfg del target st path false info =
      some (st, .unrecognized) :=
  processFile_unrecognized env cfg del target st path info h

theorem c8_unrecognized_frame_witness :
    processFile ⟨true, fun _ => none, id⟩ DefaultConfig true "t"
      (initState fun _ => none) "a/x.txt" false
      ⟨[1], 0, ⟨2025, 1, 1, 0, 0, 0⟩⟩ =
      some (initState fun _ => none, .unrecognized) :=
  c8_unrecognized_frame ⟨true, fun _ => none, id⟩ DefaultConfig true "t"
    (initState fun _ => none) "a/x.txt" ⟨[1], 0, ⟨2025, 1, 1, 0, 0, 0⟩⟩
    (by decide)

theorem getMediaType_mem {cfg : Config} {ext : String}
    (h : getMediaType cfg ext ≠ "") :
    ∃ m ∈ cfg.mediaTypes, ext ∈ m.2 := by
  unfold getMediaType at h
  cases hf : cfg.mediaTypes.find? (fun m => m.2.contains ext) with
  | none => rw [hf] at h; exact absurd rfl h
  | some m =>
      have hmem := List.mem_of_find?_eq_some hf
      have hp := List.find?_some hf
      exact ⟨m, hmem, by simpa using hp⟩

def c10Cfg : Config :=
  { folderTemplate := "x", mediaTypes := [("images", [""])],
    useOriginalName := true, loggingEnabled := false }

def c10Env : Env := ⟨true, fun _ => none, id⟩

def c10Info : FileData := ⟨[], 0, ⟨2025, 4, 24, 15, 30, 0⟩⟩

/-- Claim C10: processing is free of the `ext[1:]` out-of-range panic
whenever every configured extension string is non-empty; conversely,
with an empty string in a category's extension list, a file without an
extension matches that category and the slice panics (modelled as
`none`). -/
theorem c10_extension_slice_safety :
    (∀ (env : Env) (cfg : Config) (del : Bool) (target : String)
        (st : PState) (path : String) (info : FileData),
      (∀ m ∈ cfg.mediaTypes, ∀ e ∈ m.2, e ≠ "") →
      processFile env cfg del target st path false info ≠ none)
    ∧ processFile c10Env c10Cfg false "t" (initState fun _ => none) "noext"
        false c10Info = none := by
  constructor
  · intro env cfg del target st path info hcfg
    by_cases hmt : getMediaType cfg (extOf path) = ""
    · rw [processFile_unrecognized env cfg del target st path info hmt]
      simp
    · have hext : extOf path ≠ "" := by
        obtain ⟨m, hm, hin⟩ := getMediaType_mem hmt
        exact hcfg m hm _ hin
      rw [processFile_recognized env cfg del target st path info hmt hext]
      simp
  · rfl

theorem c10_extension_slice_safety_witness :
    processFile c10Env DefaultConfig false "t" (initState fun _ => none)
      "a/p.jpg" false c10Info ≠ none :=
  c10_extension_slice_safety.1 c10Env DefaultConfig false "t"
    (initState fun _ => none) "a/p.jpg" c10Info (by decide)

def c4Date : DateTime := ⟨2020, 1, 2, 3, 4, 5⟩

def c4Env : Env := ⟨true, fun _ => some "2025:04:24 15:30:00", id⟩

def c4FS : FS := fun p =>
  if p = "s/p.jpg" then some ⟨[7], 0, c4Date⟩
  else if p = "t/2025/04/p.jpg" then some ⟨[7], 9, c4Date⟩
  else none

/-- Claim C4: when the derived destination already holds an identical
file, the pipeline reports skipped-as-identical, leaves the ledger
unchanged, writes nothing anywhere, and deletes the source exactly when
source deletion is enabled. -/
theorem c4_skip_identical_behavior (env : Env) (cfg : Config) (del : Bool)
    (target : String) (st : PState) (path : String) (info : FileData)
    (hmt : getMediaType cfg (extOf path) ≠ "")
    (hext : extOf path ≠ "")
    (hid : areFilesIdentical env st.fs path
        (destPath env cfg target st.exiftoolChecked path info) = .ok true) :
    ∃ st2, processFile env cfg del target st path false info =
        some (st2, .skippedIdentical)
      ∧ st2.processedFiles = st.processedFiles
      ∧ (∀ p, p ≠ path → st2.fs p = st.fs p)
      ∧ st2.fs path = (if del then none else st.fs path) := by
  rw [processFile_recognized env cfg del target st path info hmt hext]
  unfold processRecognized
  dsimp only
  rw [if_pos hid]
  cases del with
  | false =>
      simp only [Bool.false_eq_true, if_false]
      refine ⟨_, rfl, ?_, ?_, ?_⟩
      · exact afterDateState_processedFiles env cfg st _ path info
      · intro p _
        exact congrFun (afterDateState_fs env cfg st _ path info) p
      · exact congrFun (afterDateState_fs env cfg st _ path info) path
  | true =>
      simp only [if_true]
      refine ⟨_, rfl, ?_, ?_, ?_⟩
      · exact afterDateState_processedFiles env cfg st _ path info
      · intro p hp
        show fsRemove _ path p = st.fs p
        unfold fsRemove
        rw [if_neg hp]
        exact congrFun (afterDateState_fs env cfg st _ path info) p
      · show fsRemove _ path path = none
        unfold fsRemove
        rw [if_pos rfl]

theorem c4_skip_identical_behavior_witness :
    (getMediaType DefaultConfig (extOf "s/p.jpg") ≠ ""
      ∧ extOf "s/p.jpg" ≠ ""
      ∧ areFilesIdentical c4Env (initState c4FS).fs "s/p.jpg"
          (destPath c4Env DefaultConfig "t" (initState c4FS).exiftoolChecked
            "s/p.jpg" ⟨[7], 0, c4Date⟩) = .ok true)
    ∧ ∃ st2, processFile c4Env DefaultConfig true "t" (initState c4FS)
          "s/p.jpg" false ⟨[7], 0, c4Date⟩ = some (st2, .skippedIdentical)
        ∧ st2.processedFiles = (initState c4FS).processedFiles
        ∧ (∀ p, p ≠ "s/p.jpg" → st2.fs p = (initState c4FS).fs p)
        ∧ st2.fs "s/p.jpg" = (if true then none else (initState c4FS).fs "s/p.jpg") :=
  ⟨⟨by decide, by decide, by decide⟩,
    c4_skip_identical_behavior c4Env DefaultConfig true "t" (initState c4FS)
      "s/p.jpg" ⟨[7], 0, c4Date⟩ (by decide) (by decide) (by decide)⟩

/-- Claim C1 (code bug): when the one-time exiftool availability probe
fails, `getFileDate` does return the probe error, but `processFile`
swallows it exactly like a per-file extraction failure: it logs a
warning, falls back to the file's modification time, and processes the
file to completion — the run is not aborted, contrary to the claim and
the spec (the code's own `checkExiftool` message, "Please install
exiftool ...", is never surfaced, and `exiftoolAvailable` is never
read). -/
theorem c1_probe_failure_not_fatal (env : Env) (cfg : Config) (del : Bool)
    (target : String) (st : PState) (path : String) (info : FileData)
    (hprobe : env.exiftoolOK = false)
    (hchk : st.exiftoolChecked = false)
    (hmt : getMediaType cfg (extOf path) ≠ "")
    (hext : extOf path ≠ "") :
    (getFileDate env st.exiftoolChecked path).2 = .error ()
    ∧ resolvedDate env st.exiftoolChecked path info = info.modTime
    ∧ ∃ st2 o, processFile env cfg del target st path false info =
        some (st2, o)
      ∧ st2.stats.ExifFound = st.stats.ExifFound
      ∧ st2.stats.ProcessedFiles = st.stats.ProcessedFiles + 1 := by
  have herr : getFileDate env st.exiftoolChecked path = (true, .error ()) := by
    unfold getFileDate
    rw [hchk, hprobe]
    rfl
  refine ⟨by rw [herr], by unfold resolvedDate; rw [herr], ?_⟩
  rw [processFile_recognized env cfg del target st path info hmt hext]
  unfold processRecognized afterDateState
  rw [herr]
  dsimp only
  split
  · cases del <;> exact ⟨_, _, rfl, rfl, rfl⟩
  · cases del <;> exact ⟨_, _, rfl, rfl, rfl⟩

def c1Env : Env := ⟨false, fun _ => none, id⟩

def c1FS : FS := fun p =>
  if p = "s/p.jpg" then some ⟨[7], 0, c4Date⟩ else none

theorem c1_probe_failure_not_fatal_witness :
    (c1Env.exiftoolOK = false
      ∧ (initState c1FS).exiftoolChecked = false
      ∧ getMediaType DefaultConfig (extOf "s/p.jpg") ≠ ""
      ∧ extOf "s/p.jpg" ≠ "")
    ∧ ((getFileDate c1Env (initState c1FS).exiftoolChecked "s/p.jpg").2 =
        .error ()
      ∧ resolvedDate c1Env (initState c1FS).exiftoolChecked "s/p.jpg"
          ⟨[7], 0, c4Date⟩ = (⟨[7], 0, c4Date⟩ : FileData).modTime
      ∧ ∃ st2 o, processFile c1Env DefaultConfig false "t" (initState c1FS)
            "s/p.jpg" false ⟨[7], 0, c4Date⟩ = some (st2, o)
        ∧ st2.stats.ExifFound = (initState c1FS).stats.ExifFound
        ∧ st2.stats.ProcessedFiles =
            (initState c1FS).stats.ProcessedFiles + 1) :=
  ⟨⟨rfl, rfl, by decide, by decide⟩,
    c1_probe_failure_not_fatal c1Env DefaultConfig false "t" (initState c1FS)
      "s/p.jpg" ⟨[7], 0, c4Date⟩ rfl rfl (by decide) (by decide)⟩

/-- A recognized file whose (lowercased) extension is the empty string
panics at the `ext[1:]` slice. -/
theorem processFile_panic (env : Env) (cfg : Config) (del : Bool)
    (target : String) (st : PState) (path : String) (info : FileData)
    (hmt : getMediaType cfg (extOf path) ≠ "") (hext : extOf path = "") :
    processFile env cfg del target st path false info = none := by
  simp only [extOf] at hmt hext
  rw [hext] at hmt
  unfold processFile
  simp [Bool.false_eq_true, hext, hmt, goSliceFromOne]

/-- Branch facts about one recognized file: the outcome is exactly one
of skipped-as-identical, copied, copied-and-deleted; the processed-files
counter gains one; the ledger gains one entry in the copy cases and none
in the skip case. -/
theorem processRecognized_spec (env : Env) (cfg : Config) (del : Bool)
    (target : String) (st : PState) (path : String) (info : FileData) :
    ∃ st2 o, processRecognized env cfg del target st path info = (st2, o)
    ∧ (o = .skippedIdentical ∨ o = .copied ∨ o = .copiedDeleted)
    ∧ st2.stats.ProcessedFiles = st.stats.ProcessedFiles + 1
    ∧ st2.processedFiles.length = st.processedFiles.length +
        (if o = .skippedIdentical then 0 else 1) := by
  unfold processRecognized
  dsimp only
  split
  · cases del <;>
      refine ⟨_, _, rfl, Or.inl rfl, ?_, ?_⟩ <;>
      simp [afterDateState_ProcessedFiles, afterDateState_processedFiles]
  · cases del
    · refine ⟨_, _, rfl, Or.inr (Or.inl rfl), ?_, ?_⟩
      · simp [afterDateState_ProcessedFiles]
      · simp [afterDateState_processedFiles]
    · refine ⟨_, _, rfl, Or.inr (Or.inr rfl), ?_, ?_⟩
      · simp [afterDateState_ProcessedFiles]
      · simp [afterDateState_processedFiles]

/-- Counting invariant of the walk: one outcome per file, unrecognized
exactly for unrecognized extensions, recognized files end in exactly one
of the three terminal outcomes, and the statistics counter and ledger
grow by the corresponding counts. -/
theorem runWalk_spec (env : Env) (cfg : Config) (del : Bool)
    (target : String) :
    ∀ (files : List String) (st st2 : PState)
      (outs : List (String × Outcome)),
      runWalk env cfg del target files st = some (st2, outs) →
      outs.map Prod.fst = files
      ∧ (∀ fo ∈ outs,
          (getMediaType cfg (extOf fo.1) = "" → fo.2 = .unrecognized)
          ∧ (getMediaType cfg (extOf fo.1) ≠ "" →
            (fo.2 = .skippedIdentical ∨ fo.2 = .copied ∨
              fo.2 = .copiedDeleted)))
      ∧ st2.stats.ProcessedFiles = st.stats.ProcessedFiles +
          List.countP (fun fo => !(fo.2 == Outcome.unrecognized)) outs
      ∧ st2.processedFiles.length = st.processedFiles.length +
          List.countP (fun fo => fo.2 == Outcome.copied ||
            fo.2 == Outcome.copiedDeleted) outs := by
  intro files
  induction files with
  | nil =>
      intro st st2 outs h
      simp only [runWalk, Option.some.injEq, Prod.mk.injEq] at h
      obtain ⟨h1, h2⟩ := h
      subst h1; subst h2
      simp
  | cons f rest ih =>
      intro st st2 outs h
      simp only [runWalk] at h
      cases hinfo : st.fs f with
      | none => rw [hinfo] at h; cases h
      | some info =>
          rw [hinfo] at h
          dsimp only at h
          by_cases hmt : getMediaType cfg (extOf f) = ""
          · rw [processFile_unrecognized env cfg del target st f info hmt] at h
            dsimp only at h
            cases hrec : runWalk env cfg del target rest st with
            | none => rw [hrec] at h; cases h
            | some r =>
                obtain ⟨st3, outs3⟩ := r
                rw [hrec] at h
                simp only [Option.some.injEq, Prod.mk.injEq] at h
                obtain ⟨h1, h2⟩ := h
                subst h1; subst h2
                obtain ⟨ihm, iho, ihp, ihl⟩ := ih st st3 outs3 hrec
                refine ⟨by simp [ihm], ?_, ?_, ?_⟩
                · intro fo hfo
                  rcases List.mem_cons.mp hfo with hfo | hfo
                  · subst hfo
                    exact ⟨fun _ => rfl, fun hne => absurd hmt hne⟩
                  · exact iho fo hfo
                · simp [List.countP_cons, ihp]
                · simp [List.countP_cons, ihl]
          · by_cases hext : extOf f = ""
            · rw [processFile_panic env cfg del target st f info hmt hext] at h
              cases h
            · rw [processFile_recognized env cfg del target st f info hmt hext] at h
              obtain ⟨stp, o, hpr, htri, hpp, hpl⟩ :=
                processRecognized_spec env cfg del target st f info
              rw [hpr] at h
              dsimp only at h
              cases hrec : runWalk env cfg del target rest stp with
              | none => rw [hrec] at h; cases h
              | some r =>
                  obtain ⟨st3, outs3⟩ := r
                  rw [hrec] at h
                  simp only [Option.some.injEq, Prod.mk.injEq] at h
                  obtain ⟨h1, h2⟩ := h
                  subst h1; subst h2
                  obtain ⟨ihm, iho, ihp, ihl⟩ := ih stp st3 outs3 hrec
                  have hone : (!((f, o).2 == Outcome.unrecognized)) = true := by
                    rcases htri with h | h | h <;> simp [h]
                  refine ⟨by simp [ihm], ?_, ?_, ?_⟩
                  · intro fo hfo
                    rcases List.mem_cons.mp hfo with hfo | hfo
                    · subst hfo
                      exact ⟨fun hc => absurd hc hmt, fun _ => htri⟩
                    · exact iho fo hfo
                  · rw [List.countP_cons]
                    simp only [hone, if_true]
                    rw [ihp, hpp]
                    omega
                  · rw [List.countP_cons, ihl, hpl]
                    rcases htri with h | h | h <;> simp [h] <;> omega

/-- Recognized outcomes split the non-unrecognized count into the
skipped count plus the ledger count. -/
theorem countP_outcome_split (outs : List (String × Outcome))
    (h : ∀ fo ∈ outs, fo.2 = .unrecognized ∨ fo.2 = .skippedIdentical ∨
      fo.2 = .copied ∨ fo.2 = .copiedDeleted) :
    List.countP (fun fo => !(fo.2 == Outcome.unrecognized)) outs =
      List.countP (fun fo => fo.2 == Outcome.skippedIdentical) outs +
        List.countP (fun fo => fo.2 == Outcome.copied ||
          fo.2 == Outcome.copiedDeleted) outs := by
  induction outs with
  | nil => simp
  | cons fo rest ih =>
      have hrest := ih (fun x hx => h x (List.mem_cons_of_mem _ hx))
      have hfo := h fo (List.mem_cons_self _ _)
      simp only [List.countP_cons]
      rcases hfo with h1 | h1 | h1 | h1 <;> simp [h1, hrest] <;> omega

/-- Claim C7: every walked file gets exactly one outcome; a recognized
file's outcome is exactly one of skipped-as-identical, copied,
copied-and-source-deleted; and at the end of a completed run, the
processed-files counter equals the ledger's length plus the number of
skipped-as-identical files (the ledger counts only the copy cases). -/
theorem c7_outcome_accounting (env : Env) (cfg : Config) (del : Bool)
    (target : String) (fs0 : FS) (files : List String)
    (st2 : PState) (outs : List (String × Outcome))
    (h : runWalk env cfg del target files (initState fs0) = some (st2, outs)) :
    outs.map Prod.fst = files
    ∧ (∀ fo ∈ outs,
        (getMediaType cfg (extOf fo.1) = "" → fo.2 = .unrecognized)
        ∧ (getMediaType cfg (extOf fo.1) ≠ "" →
          (fo.2 = .skippedIdentical ∨ fo.2 = .copied ∨
            fo.2 = .copiedDeleted)))
    ∧ st2.processedFiles.length = List.countP
        (fun fo => fo.2 == Outcome.copied || fo.2 == Outcome.copiedDeleted)
        outs
    ∧ st2.stats.ProcessedFiles =
        st2.processedFiles.length +
          List.countP (fun fo => fo.2 == Outcome.skippedIdentical) outs := by
  obtain ⟨hm, ho, hp, hl⟩ := runWalk_spec env cfg del target files
    (initState fs0) st2 outs h
  have htri : ∀ fo ∈ outs, fo.2 = .unrecognized ∨ fo.2 = .skippedIdentical ∨
      fo.2 = .copied ∨ fo.2 = .copiedDeleted := by
    intro fo hfo
    by_cases hc : getMediaType cfg (extOf fo.1) = ""
    · exact Or.inl ((ho fo hfo).1 hc)
    · rcases (ho fo hfo).2 hc with h1 | h1 | h1
      · exact Or.inr (Or.inl h1)
      · exact Or.inr (Or.inr (Or.inl h1))
      · exact Or.inr (Or.inr (Or.inr h1))
  have hsplit := countP_outcome_split outs htri
  refine ⟨hm, ho, ?_, ?_⟩
  · simpa [initState, initStats] using hl
  · rw [hp, hl]
    have hzero1 : (initState fs0).stats.ProcessedFiles = 0 := rfl
    have hzero2 : (initState fs0).processedFiles.length = 0 := rfl
    rw [hzero1, hzero2, hsplit]
    omega

def c7FS : FS := fun p =>
  if p = "s/p.jpg" then some ⟨[7], 0, c4Date⟩ else none

theorem c7_outcome_accounting_witness :
    ∃ st2 outs,
      runWalk c4Env DefaultConfig false "t" ["s/p.jpg"] (initState c7FS) =
        some (st2, outs)
      ∧ (outs.map Prod.fst = ["s/p.jpg"]
        ∧ (∀ fo ∈ outs,
            (getMediaType DefaultConfig (extOf fo.1) = "" →
              fo.2 = .unrecognized)
            ∧ (getMediaType DefaultConfig (extOf fo.1) ≠ "" →
              (fo.2 = .skippedIdentical ∨ fo.2 = .copied ∨
                fo.2 = .copiedDeleted)))
        ∧ st2.processedFiles.length = List.countP
            (fun fo => fo.2 == Outcome.copied ||
              fo.2 == Outcome.copiedDeleted) outs
        ∧ st2.stats.ProcessedFiles =
            st2.processedFiles.length +
              List.countP (fun fo => fo.2 == Outcome.skippedIdentical)
                outs) := by
  have hrun : (runWalk c4Env DefaultConfig false "t" ["s/p.jpg"]
      (initState c7FS)).isSome = true := rfl
  obtain ⟨r, hr⟩ := Option.isSome_iff_exists.mp hrun
  obtain ⟨st2, outs⟩ := r
  exact ⟨st2, outs, hr,
    c7_outcome_accounting c4Env DefaultConfig false "t" c7FS ["s/p.jpg"]
      st2 outs hr⟩

/-! ### Run-twice idempotence machinery (C2) -/

/-- Coherence of the external environment: when the tool is missing,
per-file invocations fail too (executing an absent binary cannot
produce output). -/
def envCoherent (env : Env) : Prop :=
  env.exiftoolOK = false → ∀ p, env.exifOut p = none

/-- Under a coherent environment the date-resolution result does not
depend on the checked-once flag (the flag only selects which error is
reported). -/
theorem getFileDate_snd_const (env : Env) (hcoh : envCoherent env)
    (c1 c2 : Bool) (path : String) :
    (getFileDate env c1 path).2 = (getFileDate env c2 path).2 := by
  unfold getFileDate
  cases hok : env.exiftoolOK
  · have h := hcoh hok path
    cases c1 <;> cases c2 <;> simp [h, hok]
  · cases c1 <;> cases c2 <;> simp [hok]

theorem destPath_coherent (env : Env) (hcoh : envCoherent env)
    (cfg : Config) (target : String) (c : Bool) (f : String)
    (info : FileData) :
    destPath env cfg target c f info = destPath env cfg target true f info := by
  unfold destPath resolvedDate
  rw [getFileDate_snd_const env hcoh c true f]

/-- The comparator reads the filesystem only at its two paths. -/
theorem areFilesIdentical_congr (env : Env) (fs1 fs2 : FS)
    (src dst : String) (hs : fs1 src = fs2 src) (hd : fs1 dst = fs2 dst) :
    areFilesIdentical env fs1 src dst = areFilesIdentical env fs2 src dst := by
  unfold areFilesIdentical areFilesIdenticalC
  rw [hs, hd]

/-- Two files with the same content compare identical. -/
theorem areFilesIdentical_same_content (env : Env) (fs : FS)
    (src dst : String) (s t : FileData) (hs : fs src = some s)
    (hd : fs dst = some t) (hc : s.content = t.content) :
    areFilesIdentical env fs src dst = .ok true := by
  unfold areFilesIdentical areFilesIdenticalC
  rw [hs, hd]
  simp [hc]

/-- Skip branch of a recognized file in copy-only mode: the filesystem
is untouched. -/
theorem processRecognized_skip (env : Env) (cfg : Config) (target : String)
    (st : PState) (path : String) (info : FileData)
    (hid : areFilesIdentical env st.fs path
      (destPath env cfg target st.exiftoolChecked path info) = .ok true) :
    ∃ st2, processRecognized env cfg false target st path info =
        (st2, .skippedIdentical)
      ∧ st2.fs = st.fs := by
  unfold processRecognized
  dsimp only
  rw [if_pos hid]
  simp only [Bool.false_eq_true, if_false]
  exact ⟨_, rfl, afterDateState_fs env cfg st _ path info⟩

/-- Copy branch of a recognized file in copy-only mode: the source's
content, mode and time are written at the derived destination and
nothing else changes. -/
theorem processRecognized_copy (env : Env) (cfg : Config) (target : String)
    (st : PState) (path : String) (info : FileData)
    (hid : areFilesIdentical env st.fs path
      (destPath env cfg target st.exiftoolChecked path info) ≠ .ok true) :
    ∃ st2, processRecognized env cfg false target st path info =
        (st2, .copied)
      ∧ st2.fs = fsWrite st.fs
          (destPath env cfg target st.exiftoolChecked path info)
          ⟨info.content, info.mode, info.modTime⟩ := by
  unfold processRecognized
  dsimp only
  rw [if_neg hid]
  simp only [Bool.false_eq_true, if_false]
  refine ⟨_, rfl, ?_⟩
  show fsWrite (afterDateState env cfg st _ path info).fs _ _ = _
  rw [afterDateState_fs]

def defaultFD : FileData := ⟨[], 0, ⟨0, 0, 0, 0, 0, 0⟩⟩

/-- The destination a file derives, as a pure function of the initial
filesystem (the flag argument is irrelevant under coherence). -/
def destOfD (env : Env) (cfg : Config) (target : String) (fs0 : FS)
    (f : String) : String :=
  destPath env cfg target true f ((fs0 f).getD defaultFD)

def recogB (cfg : Config) (f : String) : Bool :=
  !(getMediaType cfg (extOf f) == "")

/-- Destinations of the recognized files of a walk list. -/
def destsOf (env : Env) (cfg : Config) (target : String) (fs0 : FS)
    (l : List String) : List String :=
  (l.filter (recogB cfg)).map (destOfD env cfg target fs0)

theorem mem_destsOf {env : Env} {cfg : Config} {target : String} {fs0 : FS}
    {l : List String} {p : String} :
    p ∈ destsOf env cfg target fs0 l ↔
      ∃ g ∈ l, recogB cfg g = true ∧ p = destOfD env cfg target fs0 g := by
  simp only [destsOf, List.mem_map, List.mem_filter]
  constructor
  · rintro ⟨g, ⟨hg, hr⟩, he⟩
    exact ⟨g, hg, hr, he.symm⟩
  · rintro ⟨g, hg, hr, he⟩
    exact ⟨g, ⟨hg, hr⟩, he.symm⟩

/-- First run over a source list in copy-only mode: the run completes,
writes only at the derived destinations of its recognized files, and
afterwards every recognized file compares identical against its
destination. -/
theorem runWalk_once (env : Env) (cfg : Config) (target : String) (fs0 : FS)
    (hcoh : envCoherent env)
    (hnoemp : ∀ m ∈ cfg.mediaTypes, ∀ e ∈ m.2, e ≠ "") :
    ∀ (l : List String) (st : PState),
      (∀ f ∈ l, st.fs f = fs0 f) →
      (∀ f ∈ l, (fs0 f).isSome = true) →
      (destsOf env cfg target fs0 l).Nodup →
      (∀ f ∈ l, ∀ g ∈ l, recogB cfg g = true →
        destOfD env cfg target fs0 g ≠ f) →
      ∃ st1 outs, runWalk env cfg false target l st = some (st1, outs)
        ∧ (∀ p, p ∉ destsOf env cfg target fs0 l → st1.fs p = st.fs p)
        ∧ (∀ f ∈ l, recogB cfg f = true →
            areFilesIdentical env st1.fs f (destOfD env cfg target fs0 f) =
              .ok true) := by
  intro l
  induction l with
  | nil =>
      intro st _ _ _ _
      exact ⟨st, [], rfl, fun p _ => rfl,
        fun f hf => absurd hf (List.not_mem_nil f)⟩
  | cons f rest ih =>
      intro st hsrc hsome hnd hdisj
      have hsf : st.fs f = fs0 f := hsrc f (List.mem_cons_self f rest)
      obtain ⟨info, hinfo⟩ := Option.isSome_iff_exists.mp
        (hsome f (List.mem_cons_self f rest))
      have hstf : st.fs f = some info := by rw [hsf, hinfo]
      have hgetD : (fs0 f).getD defaultFD = info := by rw [hinfo]; rfl
      by_cases hmt : getMediaType cfg (extOf f) = ""
      · have hrB : recogB cfg f = false := by simp [recogB, hmt]
        have hdl : destsOf env cfg target fs0 (f :: rest) =
            destsOf env cfg target fs0 rest := by
          simp [destsOf, List.filter_cons, hrB]
        obtain ⟨st1, outs, hrun, hframe, hpost⟩ := ih st
          (fun g hg => hsrc g (List.mem_cons_of_mem _ hg))
          (fun g hg => hsome g (List.mem_cons_of_mem _ hg))
          (by rw [hdl] at hnd; exact hnd)
          (fun a ha b hb hrb => hdisj a (List.mem_cons_of_mem _ ha) b
            (List.mem_cons_of_mem _ hb) hrb)
        refine ⟨st1, (f, .unrecognized) :: outs, ?_, ?_, ?_⟩
        · simp only [runWalk, hstf,
            processFile_unrecognized env cfg false target st f info hmt, hrun]
        · intro p hp
          rw [hdl] at hp
          exact hframe p hp
        · intro g hg hrg
          rcases List.mem_cons.mp hg with hg | hg
          · subst hg
            rw [hrg] at hrB
            cases hrB
          · exact hpost g hg hrg
      · have hrB : recogB cfg f = true := by simp [recogB, hmt]
        have hext : extOf f ≠ "" := by
          obtain ⟨m, hm, hin⟩ := getMediaType_mem hmt
          exact hnoemp m hm _ hin
        have hdP : destPath env cfg target st.exiftoolChecked f info =
            destOfD env cfg target fs0 f := by
          rw [destPath_coherent env hcoh]
          unfold destOfD
          rw [hgetD]
        have hdl : destsOf env cfg target fs0 (f :: rest) =
            destOfD env cfg target fs0 f :: destsOf env cfg target fs0 rest := by
          simp [destsOf, List.filter_cons, hrB]
        have hndrest : (destsOf env cfg target fs0 rest).Nodup := by
          rw [hdl] at hnd
          exact hnd.of_cons
        have hdnotin : destOfD env cfg target fs0 f ∉
            destsOf env cfg target fs0 rest := by
          rw [hdl] at hnd
          exact (List.nodup_cons.mp hnd).1
        have hfnotin : f ∉ destsOf env cfg target fs0 rest := by
          intro hmem
          obtain ⟨g, hg, hrg, he⟩ := mem_destsOf.mp hmem
          exact hdisj f (List.mem_cons_self f rest) g
            (List.mem_cons_of_mem _ hg) hrg he.symm
        by_cases hid : areFilesIdentical env st.fs f
            (destPath env cfg target st.exiftoolChecked f info) = .ok true
        · obtain ⟨stp, hpr, hpfs⟩ :=
            processRecognized_skip env cfg target st f info hid
          obtain ⟨st1, outs, hrun, hframe, hpost⟩ := ih stp
            (fun g hg => by
              rw [hpfs]; exact hsrc g (List.mem_cons_of_mem _ hg))
            (fun g hg => hsome g (List.mem_cons_of_mem _ hg))
            hndrest
            (fun a ha b hb hrb => hdisj a (List.mem_cons_of_mem _ ha) b
              (List.mem_cons_of_mem _ hb) hrb)
          refine ⟨st1, (f, .skippedIdentical) :: outs, ?_, ?_, ?_⟩
          · simp only [runWalk, hstf,
              processFile_recognized env cfg false target st f info hmt hext,
              hpr, hrun]
          · intro p hp
            rw [hdl] at hp
            have hp1 : p ∉ destsOf env cfg target fs0 rest :=
              fun hmem => hp (List.mem_cons_of_mem _ hmem)
            rw [hframe p hp1, hpfs]
          · intro g hg hrg
            rcases List.mem_cons.mp hg with hg | hg
            · subst hg
              have hf_pres : st1.fs g = st.fs g := by
                rw [hframe g hfnotin, hpfs]
              have hd_pres : st1.fs (destOfD env cfg target fs0 g) =
                  st.fs (destOfD env cfg target fs0 g) := by
                rw [hframe _ hdnotin, hpfs]
              rw [areFilesIdentical_congr env st1.fs st.fs g _ hf_pres hd_pres,
                ← hdP]
              exact hid
            · exact hpost g hg hrg
        · obtain ⟨stp, hpr, hpfs⟩ :=
            processRecognized_copy env cfg target st f info hid
          rw [hdP] at hpfs
          obtain ⟨st1, outs, hrun, hframe, hpost⟩ := ih stp
            (fun g hg => by
              rw [hpfs]
              unfold fsWrite
              rw [if_neg (fun he => hdisj g (List.mem_cons_of_mem _ hg) f
                (List.mem_cons_self f rest) hrB he.symm)]
              exact hsrc g (List.mem_cons_of_mem _ hg))
            (fun g hg => hsome g (List.mem_cons_of_mem _ hg))
            hndrest
            (fun a ha b hb hrb => hdisj a (List.mem_cons_of_mem _ ha) b
              (List.mem_cons_of_mem _ hb) hrb)
          refine ⟨st1, (f, .copied) :: outs, ?_, ?_, ?_⟩
          · simp only [runWalk, hstf,
              processFile_recognized env cfg false target st f info hmt hext,
              hpr, hrun]
          · intro p hp
            rw [hdl] at hp
            have hp1 : p ∉ destsOf env cfg target fs0 rest :=
              fun hmem => hp (List.mem_cons_of_mem _ hmem)
            have hp2 : p ≠ destOfD env cfg target fs0 f :=
              fun he => hp (he ▸ List.mem_cons_self _ _)
            rw [hframe p hp1, hpfs]
            unfold fsWrite
            rw [if_neg hp2]
          · intro g hg hrg
            rcases List.mem_cons.mp hg with hg | hg
            · subst hg
              have hf_pres : st1.fs g = some info := by
                rw [hframe g hfnotin, hpfs]
                unfold fsWrite
                rw [if_neg (fun he => hdisj g (List.mem_cons_self g rest) g
                  (List.mem_cons_self g rest) hrB he.symm), hstf]
              have hd_pres : st1.fs (destOfD env cfg target fs0 g) =
                  some ⟨info.content, info.mode, info.modTime⟩ := by
                rw [hframe _ hdnotin, hpfs]
                unfold fsWrite
                rw [if_pos rfl]
              exact areFilesIdentical_same_content env st1.fs g _ info
                ⟨info.content, info.mode, info.modTime⟩ hf_pres hd_pres rfl
            · exact hpost g hg hrg

/-- Second run in copy-only mode: if every recognized file already
compares identical against its destination, the walk completes, never
touches the filesystem, and reports every recognized file
skipped-as-identical. -/
theorem runWalk_allskip (env : Env) (cfg : Config) (target : String)
    (fs0 : FS) (hcoh : envCoherent env)
    (hnoemp : ∀ m ∈ cfg.mediaTypes, ∀ e ∈ m.2, e ≠ "") :
    ∀ (l : List String) (st : PState),
      (∀ f ∈ l, st.fs f = fs0 f) →
      (∀ f ∈ l, (fs0 f).isSome = true) →
      (∀ f ∈ l, recogB cfg f = true →
        areFilesIdentical env st.fs f (destOfD env cfg target fs0 f) =
          .ok true) →
      ∃ st2 outs, runWalk env cfg false target l st = some (st2, outs)
        ∧ st2.fs = st.fs
        ∧ ∀ fo ∈ outs, recogB cfg fo.1 = true →
            fo.2 = .skippedIdentical := by
  intro l
  induction l with
  | nil =>
      intro st _ _ _
      exact ⟨st, [], rfl, rfl, fun fo hfo => absurd hfo (List.not_mem_nil fo)⟩
  | cons f rest ih =>
      intro st hsrc hsome hid
      have hsf : st.fs f = fs0 f := hsrc f (List.mem_cons_self f rest)
      obtain ⟨info, hinfo⟩ := Option.isSome_iff_exists.mp
        (hsome f (List.mem_cons_self f rest))
      have hstf : st.fs f = some info := by rw [hsf, hinfo]
      have hgetD : (fs0 f).getD defaultFD = info := by rw [hinfo]; rfl
      by_cases hmt : getMediaType cfg (extOf f) = ""
      · obtain ⟨st2, outs, hrun, hfs2, houts⟩ := ih st
          (fun g hg => hsrc g (List.mem_cons_of_mem _ hg))
          (fun g hg => hsome g (List.mem_cons_of_mem _ hg))
          (fun g hg hrg => hid g (List.mem_cons_of_mem _ hg) hrg)
        refine ⟨st2, (f, .unrecognized) :: outs, ?_, hfs2, ?_⟩
        · simp only [runWalk, hstf,
            processFile_unrecognized env cfg false target st f info hmt, hrun]
        · intro fo hfo hr
          rcases List.mem_cons.mp hfo with hfo | hfo
          · subst hfo
            simp [recogB, hmt] at hr
          · exact houts fo hfo hr
      · have hrB : recogB cfg f = true := by simp [recogB, hmt]
        have hext : extOf f ≠ "" := by
          obtain ⟨m, hm, hin⟩ := getMediaType_mem hmt
          exact hnoemp m hm _ hin
        have hdP : destPath env cfg target st.exiftoolChecked f info =
            destOfD env cfg target fs0 f := by
          rw [destPath_coherent env hcoh]
          unfold destOfD
          rw [hgetD]
        have hidf : areFilesIdentical env st.fs f
            (destPath env cfg target st.exiftoolChecked f info) = .ok true := by
          rw [hdP]
          exact hid f (List.mem_cons_self f rest) hrB
        obtain ⟨stp, hpr, hpfs⟩ :=
          processRecognized_skip env cfg target st f info hidf
        obtain ⟨st2, outs, hrun, hfs2, houts⟩ := ih stp
          (fun g hg => by rw [hpfs]; exact hsrc g (List.mem_cons_of_mem _ hg))
          (fun g hg => hsome g (List.mem_cons_of_mem _ hg))
          (fun g hg hrg => by
            rw [hpfs]
            exact hid g (List.mem_cons_of_mem _ hg) hrg)
        refine ⟨st2, (f, .skippedIdentical) :: outs, ?_, ?_, ?_⟩
        · simp only [runWalk, hstf,
            processFile_recognized env cfg false target st f info hmt hext,
            hpr, hrun]
        · rw [hfs2, hpfs]
        · intro fo hfo hr
          rcases List.mem_cons.mp hfo with hfo | hfo
          · subst hfo
            rfl
          · exact houts fo hfo hr

/-- Claim C2, amended: running the pipeline twice in copy-only mode over
the same source list, with a coherent environment, non-empty configured
extensions, existing sources, pairwise distinct derived destinations and
destinations disjoint from the walked sources, leaves the filesystem
after the second run equal to the one after the first run, and the
second run reports every recognized file skipped-as-identical.  (The
distinct-destination hypothesis is what the counterexample forces: two
recognized files with different content mapping to the same destination
are re-copied, not skipped, on the second run.) -/
theorem c2_second_run_skips (env : Env) (cfg : Config) (target : String)
    (fs0 : FS) (files : List String)
    (hcoh : envCoherent env)
    (hnoemp : ∀ m ∈ cfg.mediaTypes, ∀ e ∈ m.2, e ≠ "")
    (hsome : ∀ f ∈ files, (fs0 f).isSome = true)
    (hnd : (destsOf env cfg target fs0 files).Nodup)
    (hdisj : ∀ f ∈ files, ∀ g ∈ files, recogB cfg g = true →
      destOfD env cfg target fs0 g ≠ f) :
    ∃ st1 outs1 st2 outs2,
      runWalk env cfg false target files (initState fs0) = some (st1, outs1)
      ∧ runWalk env cfg false target files (initState st1.fs) =
          some (st2, outs2)
      ∧ st2.fs = st1.fs
      ∧ ∀ fo ∈ outs2, getMediaType cfg (extOf fo.1) ≠ "" →
          fo.2 = .skippedIdentical := by
  obtain ⟨st1, outs1, hrun1, hframe1, hpost1⟩ :=
    runWalk_once env cfg target fs0 hcoh hnoemp files (initState fs0)
      (fun f _ => rfl) hsome hnd hdisj
  have hsrc1 : ∀ f ∈ files, st1.fs f = fs0 f := by
    intro f hf
    rw [hframe1 f ?_]
    · rfl
    · intro hmem
      obtain ⟨g, hg, hrg, he⟩ := mem_destsOf.mp hmem
      exact hdisj f hf g hg hrg he.symm
  obtain ⟨st2, outs2, hrun2, hfs2, houts2⟩ :=
    runWalk_allskip env cfg target fs0 hcoh hnoemp files (initState st1.fs)
      hsrc1 hsome (fun f hf hr => hpost1 f hf hr)
  refine ⟨st1, outs1, st2, outs2, hrun1, hrun2, hfs2, ?_⟩
  intro fo hfo hne
  exact houts2 fo hfo (by simp [recogB, hne])

def c2Cfg : Config :=
  { folderTemplate := "x", mediaTypes := [("images", [".jpg"])],
    useOriginalName := true, loggingEnabled := false }

def c2Env : Env := ⟨true, fun _ => some "2025:04:24 15:30:00", id⟩

/-- Two recognized files with different contents whose derived
destination paths coincide (same basename, same resolved date). -/
def c2FS : FS := fun p =>
  if p = "a/p.jpg" then some ⟨[0], 0, c4Date⟩
  else if p = "b/p.jpg" then some ⟨[1, 2], 0, c4Date⟩
  else none

/-- The outcomes of the second of two copy-only runs over `c2FS`. -/
def c2Second : Option (List Outcome) :=
  match runWalk c2Env c2Cfg false "t" ["a/p.jpg", "b/p.jpg"]
      (initState c2FS) with
  | none => none
  | some (st1, _) =>
      match runWalk c2Env c2Cfg false "t" ["a/p.jpg", "b/p.jpg"]
          (initState st1.fs) with
      | none => none
      | some (_, outs2) => some (outs2.map Prod.snd)

/-- Claim C2 as stated is false: with two recognized files of different
content mapping to the same destination (`t/x/p.jpg`), the second run
copies both files again — neither takes the skipped-as-identical
branch. -/
theorem c2_counterexample :
    c2Second = some [Outcome.copied, Outcome.copied]
    ∧ getMediaType c2Cfg (extOf "a/p.jpg") ≠ ""
    ∧ getMediaType c2Cfg (extOf "b/p.jpg") ≠ ""
    ∧ Outcome.copied ≠ Outcome.skippedIdentical :=
  ⟨rfl, by decide, by decide, by decide⟩

theorem c2_second_run_skips_witness :
    ∃ st1 outs1 st2 outs2,
      runWalk c4Env DefaultConfig false "t" ["s/p.jpg"] (initState c7FS) =
        some (st1, outs1)
      ∧ runWalk c4Env DefaultConfig false "t" ["s/p.jpg"]
          (initState st1.fs) = some (st2, outs2)
      ∧ st2.fs = st1.fs
      ∧ ∀ fo ∈ outs2, getMediaType DefaultConfig (extOf fo.1) ≠ "" →
          fo.2 = .skippedIdentical :=
  c2_second_run_skips c4Env DefaultConfig "t" c7FS ["s/p.jpg"]
    (fun h => absurd h (by decide))
    (by decide) (by decide) (by decide) (by decide)

end Framefold
